import Mathlib

/-!
Verification of the stdio-to-HTTP forwarding shim in `lib/mcp-shim.js`
(repository `mcp-compose-proxy-shim`).

The shim reads newline-delimited JSON-RPC requests, applies path
sanitation against an allow-list, enforces a request-size limit and a
sliding-window rate limit, serves a response cache, and forwards
remaining requests over HTTP with timeout/retry/backoff.

Shallow embedding conventions:
* JSON values are modelled by the mutually inductive `Json` / `JsonList`
  / `JsonFields` types (object fields keep their insertion order, as JS
  objects and `JSON.stringify` do).  JSON numbers are modelled by `Int`
  (every number the shim manipulates is integral).
* The environment (clock `Date.now()`, `Math.random()`, and the outcome
  of each `fetch` attempt) is passed explicitly in an `Env` record; a
  single timestamp is used for one `forwardToProxy` invocation.
* Mutable state (the cache `Map` and the rate-limiter timestamp array)
  is threaded explicitly; `forwardToProxy` returns the new state
  together with a trace of its observable effects (HTTP attempts,
  backoff waits, cache/rate-limiter interactions).
* JS floating point only appears in the backoff computation
  `initialDelay * 2^attempt * (0.9 + Math.random() * 0.2)`, which is
  modelled exactly over `ℚ`.
-/

mutual
/-- JSON values, mirroring the untyped values the shim manipulates.
Object fields are an ordered list of key/value pairs. -/
inductive Json where
  | null : Json
  | bool (b : Bool) : Json
  | num (n : Int) : Json
  | str (s : String) : Json
  | arr (elems : JsonList) : Json
  | obj (fields : JsonFields) : Json
inductive JsonList where
  | nil : JsonList
  | cons (hd : Json) (tl : JsonList) : JsonList
inductive JsonFields where
  | nil : JsonFields
  | cons (key : String) (val : Json) (tl : JsonFields) : JsonFields
end

/-- Property lookup `j[k]` on a JS value: `none` models `undefined`
(non-objects and missing keys).  JS object keys are unique, so
first-match lookup coincides with JS semantics. -/
def getField (j : Json) (k : String) : Option Json :=
  match j with
  | .obj fs => fieldsGet fs k
  | _ => none
where
  fieldsGet : JsonFields → String → Option Json
  | .nil, _ => none
  | .cons key v tl, k => if key = k then some v else fieldsGet tl k

/-- Property assignment `j[k] = v` on a JS object: an existing key keeps
its position, a new key is appended (JS insertion-order semantics). -/
def fieldsSet : JsonFields → String → Json → JsonFields
  | .nil, k, v => .cons k v .nil
  | .cons key w tl, k, v =>
    if key = k then .cons key v tl else .cons key w (fieldsSet tl k v)

/-- Assignment on a `Json` value; on a non-object this models the result
of the spread `{...x, k: v}` (a fresh object with the single field). -/
def setField (j : Json) (k : String) (v : Json) : Json :=
  match j with
  | .obj fs => .obj (fieldsSet fs k v)
  | _ => .obj (.cons k v .nil)

/-- JS truthiness of a possibly-absent value (`undefined`, `null`,
`false`, `0`, `""` are falsy; every array/object is truthy). -/
def isTruthy (j : Option Json) : Bool :=
  match j with
  | none => false
  | some .null => false
  | some (.bool b) => b
  | some (.num n) => n != 0
  | some (.str s) => s != ""
  | some (.arr _) => true
  | some (.obj _) => true

/-- JS `a || d` for an optional string `a` (an absent or empty string
falls back to the default). -/
def strOr (a : Option String) (d : String) : String :=
  match a with
  | some s => if s = "" then d else s
  | none => d

/-- String prefix test, used for JS `s.startsWith(pre)`. -/
def strStartsWith (s pre : String) : Bool :=
  pre.data.isPrefixOf s.data

/-- JS `s.includes(sub)`: `sub` occurs as a contiguous substring. -/
def strIncludes (s sub : String) : Bool :=
  s.data.tails.any (fun t => sub.data.isPrefixOf t)

/-- Hexadecimal digit, for JSON string escapes of control characters. -/
def hexDigit (n : Nat) : String :=
  String.singleton (Char.ofNat (if n < 10 then 48 + n else 87 + (n - 10)))

/-- JSON escaping of a single character, as `JSON.stringify` performs it. -/
def escapeChar (c : Char) : String :=
  if c = '"' then "\\\""
  else if c = '\\' then "\\\\"
  else if c = '\n' then "\\n"
  else if c = '\r' then "\\r"
  else if c = '\t' then "\\t"
  else if c = '\x08' then "\\b"
  else if c = '\x0c' then "\\f"
  else if c.toNat < 32 then "\\u00" ++ hexDigit (c.toNat / 16) ++ hexDigit (c.toNat % 16)
  else String.singleton c

/-- A JSON string literal with quotes and escapes. -/
def quoteString (s : String) : String :=
  "\"" ++ String.join (s.data.map escapeChar) ++ "\""

mutual
/-- `JSON.stringify`: deterministic serialization that preserves object
key order (JS does not canonicalize key order). -/
def stringify : Json → String
  | .null => "null"
  | .bool true => "true"
  | .bool false => "false"
  | .num n => toString n
  | .str s => quoteString s
  | .arr xs => "[" ++ stringifyList xs ++ "]"
  | .obj fs => "\x7b" ++ stringifyFields fs ++ "\x7d"
def stringifyList : JsonList → String
  | .nil => ""
  | .cons x .nil => stringify x
  | .cons x (.cons y tl) => stringify x ++ "," ++ stringifyList (.cons y tl)
def stringifyFields : JsonFields → String
  | .nil => ""
  | .cons k v .nil => quoteString k ++ ":" ++ stringify v
  | .cons k v (.cons k2 v2 tl) =>
    quoteString k ++ ":" ++ stringify v ++ "," ++ stringifyFields (.cons k2 v2 tl)
end

example : stringify (.obj (.cons "a" (.num 1) (.cons "b" (.arr (.cons .null .nil)) .nil)))
    = "\x7b\"a\":1,\"b\":[null]\x7d" := by rfl

/-- A parsed JSON-RPC request as the shim sees it after `JSON.parse` and
path-security processing.  `method` is `""` when the `method` property is
absent or not a string (every string comparison the shim performs then
behaves identically).  `secViolation`/`errMsg` model the
`__securityViolation`/`__errorMessage` properties that
`pathSecurity.processRequest` attaches. -/
structure Request where
  id : Json := .null
  method : String := ""
  params : Option Json := none
  secViolation : Bool := false
  errMsg : Option String := none

/-- `createErrorResponse(id, code, message)` from `mcp-shim.js`. -/
def createErrorResponse (id : Json) (code : Int) (message : String) : Json :=
  .obj (.cons "jsonrpc" (.str "2.0")
    (.cons "id" id
      (.cons "error" (.obj (.cons "code" (.num code)
        (.cons "message" (.str message) .nil))) .nil)))

/-- The JSON object form of a `Request`, used only to compute the
serialized size `Buffer.byteLength(JSON.stringify(request))`.  No claim
depends on the exact byte count. -/
def requestJson (r : Request) : Json :=
  let flagFields : JsonFields :=
    match r.errMsg with
    | some m =>
      .cons "__securityViolation" (.bool r.secViolation)
        (.cons "__errorMessage" (.str m) .nil)
    | none =>
      if r.secViolation then .cons "__securityViolation" (.bool true) .nil
      else .nil
  let tailFields : JsonFields :=
    match r.params with
    | some p => .cons "params" p flagFields
    | none => flagFields
  .obj (.cons "jsonrpc" (.str "2.0")
    (.cons "id" r.id
      (.cons "method" (.str r.method) tailFields)))

/-- `Buffer.byteLength(JSON.stringify(request), 'utf8')`. -/
def requestSize (r : Request) : Nat :=
  (stringify (requestJson r)).utf8ByteSize

/-! Node's POSIX `path.normalize`, implemented over `List Char` exactly
as `normalizeString` in Node's `path` module: split on `/`, drop empty
and `.` segments, resolve `..` against the stack (allowed to climb above
the start only for relative paths), then reassemble, restoring the
leading slash of an absolute path and a trailing slash. -/

/-- Split on `/` into the nonempty segments, in order (`acc` holds the
current segment reversed). -/
def segsOf : List Char → List Char → List (List Char)
  | [], acc => match acc with | [] => [] | _ => [acc.reverse]
  | c :: rest, acc =>
    if c = '/' then
      match acc with
      | [] => segsOf rest []
      | _ => acc.reverse :: segsOf rest []
    else segsOf rest (c :: acc)

/-- Resolve `.` and `..` segments against a stack (`acc` is the stack,
reversed).  `allowAbove` is `allowAboveRoot` of Node's
`normalizeString`: a `..` that cannot pop is kept for relative paths and
dropped for absolute ones. -/
def normStack (allowAbove : Bool) : List (List Char) → List (List Char) → List (List Char)
  | [], acc => acc.reverse
  | seg :: rest, acc =>
    if seg = ['.'] then normStack allowAbove rest acc
    else if seg = ['.', '.'] then
      match acc with
      | [] => normStack allowAbove rest (if allowAbove then [['.', '.']] else [])
      | top :: t =>
        if top = ['.', '.'] then
          normStack allowAbove rest (if allowAbove then ['.', '.'] :: acc else acc)
        else normStack allowAbove rest t
    else normStack allowAbove rest (seg :: acc)

/-- Join segments with `/` separators. -/
def joinSegs : List (List Char) → List Char
  | [] => []
  | [s] => s
  | s :: rest => s ++ '/' :: joinSegs rest

/-- `path.normalize` (POSIX) on the character list of the path. -/
def normalizeChars (cs : List Char) : List Char :=
  match cs with
  | [] => ['.']
  | c0 :: _ =>
    let isAbs : Bool := c0 = '/'
    let trailing : Bool := cs.getLast? = some '/'
    let body := joinSegs (normStack (!isAbs) (segsOf cs []) [])
    if body = [] then
      if isAbs then ['/'] else if trailing then ['.', '/'] else ['.']
    else
      let body2 := if trailing then body ++ ['/'] else body
      if isAbs then '/' :: body2 else body2

/-- Node's `path.normalize` (POSIX). -/
def pathNormalize (s : String) : String :=
  ⟨normalizeChars s.data⟩

/-- Node's `path.isAbsolute` (POSIX): nonempty and starting with `/`. -/
def pathIsAbsolute (s : String) : Bool :=
  match s.data with
  | [] => false
  | c :: _ => c = '/'

example : pathNormalize "/foo/bar//baz/asdf/quux/.." = "/foo/bar/baz/asdf" := by rfl
example : pathNormalize "/../../x/./y/" = "/x/y/" := by rfl
example : pathNormalize "a/../.." = ".." := by rfl
example : pathNormalize "./" = "./" := by rfl
example : pathNormalize "" = "." := by rfl

/-- `pathSecurity.sanitizePath` from `mcp-shim.js`, taking the
configured allow-list as an argument.  The argument is an arbitrary JS
value: the guard rejects non-strings and the empty string (falsy).  The
`try/catch` in the source is dead for string inputs (none of the path
operations throw), so it has no counterpart here. -/
def sanitizePath (allowedPaths : List String) (v : Json) : Option String :=
  match v with
  | .str filePath =>
    if filePath = "" then none
    else
      let normalizedPath := pathNormalize filePath
      if pathIsAbsolute normalizedPath then
        if allowedPaths.length > 0 then
          if allowedPaths.any (fun a =>
              normalizedPath = a || strStartsWith normalizedPath (a ++ "/")) then
            some normalizedPath
          else none
        else some normalizedPath
      else none
  | _ => none

example : sanitizePath ["/a/b"] (.str "/a/b") = some "/a/b" := by rfl
example : sanitizePath ["/a/b"] (.str "/a/b/c") = some "/a/b/c" := by rfl
example : sanitizePath ["/a/b"] (.str "/a/bc") = none := by rfl
example : sanitizePath ["/tmp"] (.str "/tmp/../etc/passwd") = none := by rfl
example : sanitizePath [] (.str "rel/x") = none := by rfl

/-! `pathSecurity.processRequest`.  In the source the `arguments` object
is mutated in place and the returned request shares it, so successful
sanitizations made before a later rejection remain visible in the
returned (violation-marked) request.  The functional model threads the
updated `params`/`arguments` through the four argument checks (`path`,
`paths`, `source`, `destination`) in source order. -/

/-- Mark a request as a security violation (the spread
`{...request, __securityViolation: true, __errorMessage: msg}`). -/
def markViolation (r : Request) (msg : String) : Request :=
  { r with secViolation := true, errMsg := some msg }

/-- `typeof args.k === 'string'` together with the property read. -/
def strFieldOf (j : Json) (k : String) : Option String :=
  match getField j k with
  | some (.str s) => some s
  | _ => none

/-- `typeof x === 'object'` in JS: objects, arrays and `null`. -/
def isObjectType (j : Json) : Bool :=
  match j with
  | .obj _ => true
  | .arr _ => true
  | .null => true
  | _ => false

/-- Store a mutated `arguments` object back into the request (in the
source this is implicit sharing: `args` lives inside
`request.params.arguments`). -/
def setArgs (r : Request) (params args : Json) : Request × Json :=
  let params2 := setField params "arguments" args
  ({ r with params := some params2 }, params2)

/-- The loop over `args.paths`: sanitize each entry, failing the whole
array on the first rejected entry (all-or-nothing). -/
def sanitizePathsList (allowed : List String) : JsonList → Option JsonList
  | .nil => some .nil
  | .cons p rest =>
    match sanitizePath allowed p with
    | none => none
    | some sp => (sanitizePathsList allowed rest).map (JsonList.cons (.str sp))

/-- The `source`/`destination` check: the source assigns
`args.source = sanitizePath(args.source)` BEFORE testing for `null`, so
on rejection the argument is overwritten with `null` in the returned
request. -/
def stageSrcDst (allowed : List String) (field : String) (failMsg : String)
    (next : Request → Json → Json → Request)
    (r : Request) (params args : Json) : Request :=
  match strFieldOf args field with
  | some s =>
    match sanitizePath allowed (.str s) with
    | none =>
      let args2 := setField args field .null
      let (r2, _) := setArgs r params args2
      markViolation r2 failMsg
    | some ss =>
      let args2 := setField args field (.str ss)
      let (r2, params2) := setArgs r params args2
      next r2 params2 args2
  | none => next r params args

/-- Fourth check: `destination`. -/
def stageDestination (allowed : List String) (r : Request) (params args : Json) : Request :=
  stageSrcDst allowed "destination" "Access denied to destination path"
    (fun r2 _ _ => r2) r params args

/-- Third check: `source`. -/
def stageSource (allowed : List String) (r : Request) (params args : Json) : Request :=
  stageSrcDst allowed "source" "Access denied to source path"
    (stageDestination allowed) r params args

/-- Second check: the `paths` array (`Array.isArray(args.paths)`).  On
failure nothing is written back; on success the whole array is replaced
by the sanitized entries. -/
def stagePaths (allowed : List String) (r : Request) (params args : Json) : Request :=
  match getField args "paths" with
  | some (.arr ps) =>
    match sanitizePathsList allowed ps with
    | none => markViolation r "Access denied to one or more requested paths"
    | some sps =>
      let args2 := setField args "paths" (.arr sps)
      let (r2, params2) := setArgs r params args2
      stageSource allowed r2 params2 args2
  | _ => stageSource allowed r params args

/-- First check: a single `path` string.  On rejection the request is
returned violation-marked with the ORIGINAL path still in place (and
quoted in the error message). -/
def stagePath (allowed : List String) (r : Request) (params args : Json) : Request :=
  match strFieldOf args "path" with
  | some p =>
    match sanitizePath allowed (.str p) with
    | none => markViolation r ("Access denied to path: " ++ p)
    | some sp =>
      let args2 := setField args "path" (.str sp)
      let (r2, params2) := setArgs r params args2
      stagePaths allowed r2 params2 args2
  | none => stagePaths allowed r params args

/-- `pathSecurity.processRequest`: applied only when the configured
server is the filesystem server, to `tools/call` requests whose
`arguments` is object-typed. -/
def processRequest (serverName : String) (allowed : List String) (r : Request) : Request :=
  if serverName ≠ "filesystem" then r
  else if r.method = "tools/call" then
    match r.params with
    | none => r
    | some params =>
      match getField params "arguments" with
      | none => r
      | some args =>
        if isObjectType args then stagePath allowed r params args else r
  else r

/-! The response cache (`cache` object in `mcp-shim.js`). -/

/-- A cache entry `{value, expiry}`. -/
structure CacheEntry where
  value : Json
  expiry : Int

/-- The cache `Map`, as an insertion-ordered association list. -/
def CacheMap := List (String × CacheEntry)

/-- `Map.set`: existing keys keep their position, new keys append. -/
def mapSet (entries : CacheMap) (k : String) (v : CacheEntry) : CacheMap :=
  match entries with
  | [] => [(k, v)]
  | (k0, v0) :: tl => if k0 = k then (k0, v) :: tl else (k0, v0) :: mapSet tl k v

/-- `Map.delete` of a key. -/
def mapDelete (entries : CacheMap) (k : String) : CacheMap :=
  match entries with
  | [] => []
  | (k0, v0) :: tl => if k0 = k then tl else (k0, v0) :: mapDelete tl k

/-- `cache.get(key)`: disabled caching always misses; an entry past its
expiry (`Date.now() > entry.expiry`) is evicted and reported absent.
Returns the hit (if any) and the updated map. -/
def cacheGet (enabled : Bool) (now : Int) (entries : CacheMap) (key : String) :
    Option Json × CacheMap :=
  if !enabled then (none, entries)
  else
    match entries.find? (fun p => p.1 = key) with
    | none => (none, entries)
    | some (_, e) =>
      if e.expiry < now then (none, mapDelete entries key)
      else (some e.value, entries)

/-- `cache.set(key, value)`: a no-op when caching is disabled, else
stores the value with expiry `Date.now() + cacheTTLMs`. -/
def cacheSet (enabled : Bool) (now ttl : Int) (entries : CacheMap) (key : String)
    (value : Json) : CacheMap :=
  if !enabled then entries
  else mapSet entries key { value := value, expiry := now + ttl }

/-- The `writeOperations` marker list of `cache.isUncacheable`. -/
def writeOperations : List String :=
  ["write_file", "edit_file", "create_directory", "move_file", "delete",
   "create_entities", "delete_entities", "create_relations", "delete_relations",
   "add_observations", "delete_observations"]

/-- `typeof request.params?.name === 'string'` with the property read. -/
def paramsName (r : Request) : Option String :=
  match r.params with
  | some p => strFieldOf p "name"
  | none => none

/-- `cache.isUncacheable(request)`: a `tools/call` whose string tool
name contains one of the mutation markers. -/
def isUncacheable (r : Request) : Bool :=
  if r.method = "tools/call" then
    match paramsName r with
    | some name => writeOperations.any (fun op => strIncludes name op)
    | none => false
  else false

/-- `cache.createKey(request)`: `null` for uncacheable requests, else
`` `${method}:${JSON.stringify(params)}` `` (an absent `params`
stringifies to the text `undefined` in the template literal). -/
def createKey (r : Request) : Option String :=
  if isUncacheable r then none
  else some (r.method ++ ":" ++
    (match r.params with
     | some p => stringify p
     | none => "undefined"))

example :
    isUncacheable
      { id := .null, method := "tools/call",
        params := some (.obj (.cons "name" (.str "write_file") .nil)),
        secViolation := false, errMsg := none } = true := by
  rfl
example :
    createKey
      { id := .null, method := "tools/list", params := none,
        secViolation := false, errMsg := none } = some "tools/list:undefined" := by
  rfl

/-! The rate limiter (`rateLimit` object). -/

/-- The pruning filter inside `isLimitExceeded`: keep timestamps newer
than 60 seconds (`now - time < 60000`). -/
def filterRecent (now : Int) (requests : List Int) : List Int :=
  requests.filter (fun t => now - t < 60000)

/-- `rateLimit.isLimitExceeded()`: prune, then report whether the
remaining count is at or above the ceiling.  Returns the flag and the
pruned list (the source mutates `this.requests`). -/
def isLimitExceeded (limit : Nat) (now : Int) (requests : List Int) :
    Bool × List Int :=
  let rs := filterRecent now requests
  (decide (limit ≤ rs.length), rs)

/-- `rateLimit.addRequest()`: push the current timestamp. -/
def addRequest (now : Int) (requests : List Int) : List Int :=
  requests ++ [now]

/-- The limiter as `forwardToProxy` drives it, one entry per forwarded
request: check first, and record only when the check passes (an
over-limit request returns an error before `addRequest`). -/
def runLimiter (limit : Nat) : List Int → List Int → List Bool
  | [], _ => []
  | now :: rest, reqs =>
    let chk := isLimitExceeded limit now reqs
    if chk.1 then true :: runLimiter limit rest chk.2
    else false :: runLimiter limit rest (addRequest now chk.2)

/-! The forwarder (`forwardToProxy`). -/

/-- The process-wide configuration the modelled code paths read
(`CONFIG` in `mcp-shim.js`).  `proxyUrl`/`apiKey`/logging only shape the
outbound URL, headers and logs, which carry no modelled behavior. -/
structure Config where
  serverName : String
  allowedPaths : List String
  maxRequestSize : Nat
  rateLimitPerMinute : Nat
  responseCache : Bool
  cacheTTLMs : Int
  timeout : Int
  maxRetries : Nat
  retryInitialDelayMs : Int
  retryMaxDelayMs : Int

/-- What the wire does on one `fetch` attempt: a 2xx reply with a parsed
JSON body, an elapsed per-attempt timeout (the `AbortController`
fires), a transport-level rejection, or a non-2xx status with its body
text. -/
inductive FetchOutcome where
  | ok (body : Json)
  | timeout
  | fail (msg : String)
  | httpError (status : Nat) (text : String)

/-- How the `try/catch` of the retry loop sees an attempt: the shim
turns a non-2xx status into a thrown `Error` with message
`HTTP error {status}: {text}`, and distinguishes only the abort
(timeout) error from every other failure. -/
inductive StepOutcome where
  | ok (body : Json)
  | abort
  | failed (msg : String)

/-- Classify a wire outcome as the catch block does. -/
def classify : FetchOutcome → StepOutcome
  | .ok body => .ok body
  | .timeout => .abort
  | .fail msg => .failed msg
  | .httpError status text =>
    .failed ("HTTP error " ++ toString status ++ ": " ++ text)

/-- Whether an attempt fails retryably (transport or non-2xx status). -/
def isFailStep (o : FetchOutcome) : Bool :=
  match classify o with
  | .failed _ => true
  | _ => false

/-- The failure message of a retryable failure (`""` otherwise). -/
def failMsgOf (o : FetchOutcome) : String :=
  match classify o with
  | .failed m => m
  | _ => ""

/-- The environment of one `forwardToProxy` call: the clock (a single
`Date.now()` reading for the call), the wire outcome of each attempt
number, and the `Math.random()` draw of each attempt. -/
structure Env where
  now : Int
  fetches : Nat → FetchOutcome
  rand : Nat → ℚ

/-- The backoff delay before the retry after attempt `attempt`:
`Math.min(retryMaxDelayMs, retryInitialDelayMs * 2^attempt * (0.9 + Math.random() * 0.2))`,
computed exactly over `ℚ`. -/
def backoffDelay (cfg : Config) (rand : ℚ) (attempt : Nat) : ℚ :=
  min (cfg.retryMaxDelayMs : ℚ)
    ((cfg.retryInitialDelayMs : ℚ) * 2 ^ attempt * (9/10 + rand * (2/10)))

/-- Result of the retry loop: the response, the cache after any store,
the number of `fetch` calls issued, the backoff waits performed (in
order), and whether `cache.set` was invoked. -/
structure LoopResult where
  response : Json
  cacheAfter : CacheMap
  httpAttempts : Nat
  waits : List ℚ
  cacheStored : Bool

/-- The retry loop of `forwardToProxy`, `for (attempt = 0; attempt <= maxRetries; ...)`.
`fuel` is the number of attempts still allowed (`maxRetries + 1 - attempt`);
the `fuel = 0` case is the code after the loop (reached via `break` on
the last attempt's failure), returning the proxy-unreachable error
built from `lastError?.message || "Unknown error"`.  On success the body
is cached when it carries no truthy `error` field and a cache key
exists, and returned verbatim.  A timeout aborts and returns at once;
any other failure backs off (unless it was the last attempt) and
retries. -/
def attemptLoop (cfg : Config) (env : Env) (rid : Json) (key : Option String) :
    Nat → Nat → Option String → CacheMap → LoopResult
  | 0, _, lastErr, c =>
    { response := createErrorResponse rid (-32003)
        ("Failed to communicate with MCP proxy: " ++ strOr lastErr "Unknown error"),
      cacheAfter := c, httpAttempts := 0, waits := [], cacheStored := false }
  | fuel + 1, attempt, _, c =>
    match classify (env.fetches attempt) with
    | .ok body =>
      match key with
      | some k =>
        if isTruthy (getField body "error") then
          { response := body, cacheAfter := c, httpAttempts := 1, waits := [],
            cacheStored := false }
        else
          { response := body,
            cacheAfter := cacheSet cfg.responseCache env.now cfg.cacheTTLMs c k body,
            httpAttempts := 1, waits := [], cacheStored := true }
      | none =>
        { response := body, cacheAfter := c, httpAttempts := 1, waits := [],
          cacheStored := false }
    | .abort =>
      { response := createErrorResponse rid (-32000)
          ("Request timed out after " ++ toString cfg.timeout ++ "ms"),
        cacheAfter := c, httpAttempts := 1, waits := [], cacheStored := false }
    | .failed m =>
      let rest := attemptLoop cfg env rid key fuel (attempt + 1) (some m) c
      if fuel = 0 then
        { rest with httpAttempts := rest.httpAttempts + 1 }
      else
        { rest with
          httpAttempts := rest.httpAttempts + 1,
          waits := backoffDelay cfg (env.rand attempt) attempt :: rest.waits }

/-- Result of one `forwardToProxy` call: the JSON-RPC response together
with the updated shared state and the call's observable effects. -/
structure FwdResult where
  response : Json
  cacheAfter : CacheMap
  reqsAfter : List Int
  httpAttempts : Nat
  waits : List ℚ
  rateRecorded : Bool
  cacheLookedUp : Bool
  cacheHit : Bool
  cacheStored : Bool

/-- `forwardToProxy(request)`: security-violation marker, size limit,
rate limit, cache lookup (with `id` substitution on a hit), then the
retry loop. -/
def forwardToProxy (cfg : Config) (env : Env) (cache0 : CacheMap)
    (reqs0 : List Int) (r : Request) : FwdResult :=
  if r.secViolation then
    { response := createErrorResponse r.id (-32600)
        (strOr r.errMsg "Security violation detected"),
      cacheAfter := cache0, reqsAfter := reqs0, httpAttempts := 0, waits := [],
      rateRecorded := false, cacheLookedUp := false, cacheHit := false,
      cacheStored := false }
  else if cfg.maxRequestSize < requestSize r then
    { response := createErrorResponse r.id (-32600)
        ("Request too large (" ++ toString (requestSize r) ++ " bytes)"),
      cacheAfter := cache0, reqsAfter := reqs0, httpAttempts := 0, waits := [],
      rateRecorded := false, cacheLookedUp := false, cacheHit := false,
      cacheStored := false }
  else
    let chk := isLimitExceeded cfg.rateLimitPerMinute env.now reqs0
    if chk.1 then
      { response := createErrorResponse r.id (-32029) "Rate limit exceeded",
        cacheAfter := cache0, reqsAfter := chk.2, httpAttempts := 0, waits := [],
        rateRecorded := false, cacheLookedUp := false, cacheHit := false,
        cacheStored := false }
    else
      let reqs1 := addRequest env.now chk.2
      match createKey r with
      | some key =>
        let looked := cacheGet cfg.responseCache env.now cache0 key
        match looked.1 with
        | some cached =>
          { response := setField cached "id" r.id,
            cacheAfter := looked.2, reqsAfter := reqs1, httpAttempts := 0,
            waits := [], rateRecorded := true, cacheLookedUp := true,
            cacheHit := true, cacheStored := false }
        | none =>
          let lr := attemptLoop cfg env r.id (some key) (cfg.maxRetries + 1) 0 none looked.2
          { response := lr.response, cacheAfter := lr.cacheAfter,
            reqsAfter := reqs1, httpAttempts := lr.httpAttempts,
            waits := lr.waits, rateRecorded := true, cacheLookedUp := true,
            cacheHit := false, cacheStored := lr.cacheStored }
      | none =>
        let lr := attemptLoop cfg env r.id none (cfg.maxRetries + 1) 0 none cache0
        { response := lr.response, cacheAfter := lr.cacheAfter,
          reqsAfter := reqs1, httpAttempts := lr.httpAttempts,
          waits := lr.waits, rateRecorded := true, cacheLookedUp := false,
          cacheHit := false, cacheStored := lr.cacheStored }

/-! The line processor (`rl.on('line', ...)`). -/

/-- Outcome of `JSON.parse(line)`, supplied by the environment: the
parsed value, or the thrown error's message. -/
inductive ParseResult where
  | ok (j : Json)
  | err (msg : String)

/-- Conversion of a parsed JSON value to the `Request` view.  An absent
`id` is modelled as `null` (the only divergence from JS, where a
missing property is `undefined`; no claim depends on it). -/
def reqOfJson (j : Json) : Request :=
  { id := (getField j "id").getD .null,
    method := match getField j "method" with
      | some (.str m) => m
      | _ => "",
    params := getField j "params",
    secViolation := isTruthy (getField j "__securityViolation"),
    errMsg := match getField j "__errorMessage" with
      | some (.str s) => some s
      | _ => none }

/-- The shared mutable state the line handler threads between lines. -/
structure ShimState where
  cache : CacheMap
  reqs : List Int

/-- One `line` event: the oversize check (`line.length`, modelled by the
codepoint count), then parse, path security, forward.  Returns the JSON
written to stdout, the updated state, and whether `JSON.parse` was
attempted. -/
def processLine (cfg : Config) (env : Env) (parse : String → ParseResult)
    (st : ShimState) (line : String) : Json × ShimState × Bool :=
  if cfg.maxRequestSize < line.length then
    (createErrorResponse .null (-32600) "Request too large", st, false)
  else
    match parse line with
    | .err m =>
      (createErrorResponse .null (-32700) ("Parse error: " ++ m), st, true)
    | .ok j =>
      let secureRequest := processRequest cfg.serverName cfg.allowedPaths (reqOfJson j)
      let fr := forwardToProxy cfg env st.cache st.reqs secureRequest
      (fr.response, { cache := fr.cacheAfter, reqs := fr.reqsAfter }, true)

/-- The stream of lines, processed in order with the state threaded
through (each line paired with its environment). -/
def processLines (cfg : Config) (parse : String → ParseResult) :
    ShimState → List (String × Env) → List Json
  | _, [] => []
  | st, (line, env) :: rest =>
    let stepRes := processLine cfg env parse st line
    stepRes.1 :: processLines cfg parse stepRes.2.1 rest

/-- The `error.code` of a JSON-RPC response, when present. -/
def errorCodeOf (resp : Json) : Option Json :=
  match getField resp "error" with
  | some e => getField e "code"
  | none => none

/-! Helper lemmas. -/

/-- Pure counting abstraction of `runLimiter` when pruning removes
nothing: `k` requests already recorded, `n` still to process. -/
def countRun (limit : Nat) : Nat → Nat → List Bool
  | _, 0 => []
  | k, n + 1 =>
    if limit ≤ k then true :: countRun limit k n
    else false :: countRun limit (k + 1) n

lemma filterRecent_eq_self (now : Int) (reqs : List Int)
    (h : ∀ t ∈ reqs, now - t < 60000) : filterRecent now reqs = reqs :=
  List.filter_eq_self.mpr (fun a ha => decide_eq_true (h a ha))

lemma runLimiter_eq_countRun (limit : Nat) :
    ∀ (times reqs : List Int),
      (∀ s ∈ times, ∀ t ∈ reqs, s - t < 60000) →
      (∀ s ∈ times, ∀ t ∈ times, s - t < 60000) →
      runLimiter limit times reqs = countRun limit reqs.length times.length := by
  intro times
  induction times with
  | nil => intro reqs _ _; rfl
  | cons now rest ih =>
    intro reqs h1 h2
    have hprune : filterRecent now reqs = reqs :=
      filterRecent_eq_self now reqs (h1 now (List.mem_cons_self _ _))
    have hchk : isLimitExceeded limit now reqs = (decide (limit ≤ reqs.length), reqs) := by
      simp [isLimitExceeded, hprune]
    by_cases hle : limit ≤ reqs.length
    · have hrec : runLimiter limit rest reqs = countRun limit reqs.length rest.length :=
        ih reqs (fun s hs t ht => h1 s (List.mem_cons_of_mem _ hs) t ht)
          (fun s hs t ht =>
            h2 s (List.mem_cons_of_mem _ hs) t (List.mem_cons_of_mem _ ht))
      simp [runLimiter, hchk, countRun, hle, hrec]
    · have hrec : runLimiter limit rest (addRequest now reqs) =
          countRun limit (reqs.length + 1) rest.length := by
        have hmain := ih (addRequest now reqs)
          (fun s hs t ht => by
            rcases List.mem_append.mp ht with ht | ht
            · exact h1 s (List.mem_cons_of_mem _ hs) t ht
            · have he : t = now := by simpa using ht
              exact h2 s (List.mem_cons_of_mem _ hs) t
                (by rw [he]; exact List.mem_cons_self _ _))
          (fun s hs t ht =>
            h2 s (List.mem_cons_of_mem _ hs) t (List.mem_cons_of_mem _ ht))
        simpa [addRequest] using hmain
      simp [runLimiter, hchk, countRun, hle, hrec]


lemma countRun_succ (limit k n : Nat) :
    countRun limit k (n + 1) =
      if limit ≤ k then true :: countRun limit k n
      else false :: countRun limit (k + 1) n := rfl

lemma countRun_all_false (limit : Nat) :
    ∀ (n k : Nat), k + n ≤ limit → countRun limit k n = List.replicate n false := by
  intro n
  induction n with
  | zero => intro k _; rfl
  | succ m ih =>
    intro k hk
    have hlt : ¬ limit ≤ k := by omega
    rw [countRun_succ, if_neg hlt, ih (k + 1) (by omega)]
    simp [List.replicate_succ]

lemma countRun_trip (limit : Nat) :
    ∀ (n k : Nat), k + n = limit →
      countRun limit k (n + 1) = List.replicate n false ++ [true] := by
  intro n
  induction n with
  | zero =>
    intro k hk
    have hle : limit ≤ k := by omega
    rw [countRun_succ, if_pos hle]
    simp [countRun]
  | succ m ih =>
    intro k hk
    have hlt : ¬ limit ≤ k := by omega
    rw [countRun_succ, if_neg hlt, ih (k + 1) (by omega)]
    simp [List.replicate_succ]

/-! Shared concrete fixtures for witnesses and counterexamples. -/

/-- A configuration with the source's default values. -/
def cfgStd : Config :=
  { serverName := "filesystem", allowedPaths := [], maxRequestSize := 5242880,
    rateLimitPerMinute := 60, responseCache := true, cacheTTLMs := 300000,
    timeout := 30000, maxRetries := 3, retryInitialDelayMs := 100,
    retryMaxDelayMs := 5000 }

/-- An environment whose every fetch attempt fails at transport level. -/
def envFailAll : Env :=
  { now := 0, fetches := fun _ => .fail "connect ECONNREFUSED", rand := fun _ => 1/2 }

/-- A request already marked as a security violation. -/
def reqViol : Request :=
  { id := .num 7, method := "tools/call",
    params := some (.obj (.cons "name" (.str "read_file") .nil)),
    secViolation := true, errMsg := some "Access denied to path: /tmp/x" }

/-- C1: a request carrying the security-violation marker makes
`forwardToProxy` return the invalid-request error `-32600` with the
carried reason as message, with no HTTP attempt, no backoff wait, no
cache lookup or store, no rate-limiter pruning or recording, and the
cache and rate-limiter state unchanged. -/
theorem C1_security_violation_short_circuit
    (cfg : Config) (env : Env) (cache0 : CacheMap) (reqs0 : List Int)
    (r : Request) (reason : String)
    (hv : r.secViolation = true) (hm : r.errMsg = some reason) (hne : reason ≠ "") :
    forwardToProxy cfg env cache0 reqs0 r =
      { response := createErrorResponse r.id (-32600) reason,
        cacheAfter := cache0, reqsAfter := reqs0, httpAttempts := 0, waits := [],
        rateRecorded := false, cacheLookedUp := false, cacheHit := false,
        cacheStored := false } := by
  simp [forwardToProxy, hv, strOr, hm, hne]

/-- Witness for C1 at a concrete violation-marked request. -/
theorem C1_witness :
    forwardToProxy cfgStd envFailAll [] [] reqViol =
      { response := createErrorResponse (.num 7) (-32600) "Access denied to path: /tmp/x",
        cacheAfter := [], reqsAfter := [], httpAttempts := 0, waits := [],
        rateRecorded := false, cacheLookedUp := false, cacheHit := false,
        cacheStored := false } :=
  C1_security_violation_short_circuit cfgStd envFailAll [] [] reqViol
    "Access denied to path: /tmp/x" rfl rfl (by decide)

/-- C7: `isLimitExceeded` first discards timestamps older than 60
seconds relative to the current time and reports `true` exactly when the
remaining count is at or above the ceiling; driving the limiter as the
forwarder does (check before record), `limit` requests inside a common
60-second window never trip it, while `limit + 1` such requests trip it
exactly on the last one. -/
theorem C7_rate_limiter_window :
    (∀ (limit : Nat) (now : Int) (reqs : List Int),
      (isLimitExceeded limit now reqs).2 =
        reqs.filter (fun t => now - t < 60000) ∧
      ((isLimitExceeded limit now reqs).1 = true ↔
        limit ≤ (reqs.filter (fun t => now - t < 60000)).length)) ∧
    (∀ (limit : Nat) (times : List Int),
      (∀ s ∈ times, ∀ t ∈ times, s - t < 60000) →
      (times.length = limit →
        runLimiter limit times [] = List.replicate limit false) ∧
      (times.length = limit + 1 →
        runLimiter limit times [] = List.replicate limit false ++ [true])) := by
  constructor
  · intro limit now reqs
    exact ⟨rfl, by simp [isLimitExceeded, filterRecent]⟩
  · intro limit times hwin
    have hbase := runLimiter_eq_countRun limit times []
      (fun s _ t ht => absurd ht (List.not_mem_nil t)) hwin
    constructor
    · intro hlen
      rw [hbase]
      simpa [hlen] using countRun_all_false limit times.length 0 (by omega)
    · intro hlen
      rw [hbase]
      have := countRun_trip limit limit 0 (by omega)
      simpa [hlen] using this

/-- Witness for C7: with a ceiling of 2, two requests in one window stay
under the limit and a third trips it. -/
theorem C7_witness :
    runLimiter 2 [0, 1] [] = List.replicate 2 false ∧
    runLimiter 2 [10, 20, 30] [] = List.replicate 2 false ++ [true] :=
  ⟨(C7_rate_limiter_window.2 2 [0, 1] (by decide)).1 rfl,
   (C7_rate_limiter_window.2 2 [10, 20, 30] (by decide)).2 rfl⟩

/-! Lemmas about `pathNormalize`: it preserves (non-)absoluteness, so
the absoluteness test `sanitizePath` performs on the normalized path
coincides with absoluteness of the raw path. -/

/-- Whether a character list starts with `/`. -/
def headSlash : List Char → Bool
  | [] => false
  | c :: _ => c = '/'

lemma pathIsAbsolute_eq_headSlash (s : String) :
    pathIsAbsolute s = headSlash s.data := by
  unfold pathIsAbsolute headSlash
  rfl

lemma segsOf_good :
    ∀ (cs acc : List Char), '/' ∉ acc →
      ∀ s ∈ segsOf cs acc, s ≠ [] ∧ '/' ∉ s := by
  intro cs
  induction cs with
  | nil =>
    intro acc hacc s hs
    match acc, hs with
    | a :: t, hs =>
      have heq : s = (a :: t).reverse := by simpa [segsOf] using hs
      subst heq
      exact ⟨by simp, fun hmem => hacc (List.mem_reverse.mp hmem)⟩
  | cons c rest ih =>
    intro acc hacc s hs
    by_cases hc : c = '/'
    · subst hc
      match acc, hs with
      | [], hs => exact ih [] (by simp) s (by simpa [segsOf] using hs)
      | a :: t, hs =>
        have hs2 : s = (a :: t).reverse ∨ s ∈ segsOf rest [] := by
          simpa [segsOf] using hs
        rcases hs2 with hs2 | hs2
        · subst hs2
          exact ⟨by simp, fun hmem => hacc (List.mem_reverse.mp hmem)⟩
        · exact ih [] (by simp) s hs2
    · refine ih (c :: acc) ?_ s (by simpa [segsOf, hc] using hs)
      intro hmem
      rcases List.mem_cons.mp hmem with h | h
      · exact hc h.symm
      · exact hacc h

lemma normStack_good :
    ∀ (segs acc : List (List Char)) (allow : Bool),
      (∀ s ∈ acc, s ≠ [] ∧ '/' ∉ s) →
      (∀ s ∈ segs, s ≠ [] ∧ '/' ∉ s) →
      ∀ s ∈ normStack allow segs acc, s ≠ [] ∧ '/' ∉ s := by
  intro segs
  induction segs with
  | nil =>
    intro acc allow hacc _ s hs
    simp only [normStack] at hs
    exact hacc s (List.mem_reverse.mp hs)
  | cons seg rest ih =>
    intro acc allow hacc hsegs s hs
    have hseg := hsegs seg (List.mem_cons_self _ _)
    have hrest : ∀ x ∈ rest, x ≠ [] ∧ '/' ∉ x :=
      fun x hx => hsegs x (List.mem_cons_of_mem _ hx)
    have hdd : (['.', '.'] : List Char) ≠ [] ∧ '/' ∉ (['.', '.'] : List Char) :=
      ⟨by simp, by decide⟩
    by_cases h1 : seg = ['.']
    · exact ih acc allow hacc hrest s (by simpa only [normStack, h1, if_pos] using hs)
    · by_cases h2 : seg = ['.', '.']
      · match acc, hacc with
        | [], _ =>
          cases allow with
          | true =>
            refine ih [['.', '.']] true ?_ hrest s
              (by simpa only [normStack, h1, h2, if_neg, if_pos] using hs)
            intro x hx
            have hx2 : x = ['.', '.'] := by simpa using hx
            subst hx2; exact hdd
          | false =>
            refine ih [] false (by simp) hrest s
              (by simpa only [normStack, h1, h2, if_neg, if_pos] using hs)
        | top :: t, hacc =>
          by_cases h3 : top = ['.', '.']
          · cases allow with
            | true =>
              refine ih (['.', '.'] :: top :: t) true ?_ hrest s
                (by simpa only [normStack, h1, h2, h3, if_neg, if_pos] using hs)
              intro x hx
              rcases List.mem_cons.mp hx with hx | hx
              · subst hx; exact hdd
              · exact hacc x hx
            | false =>
              exact ih (top :: t) false hacc hrest s
                (by simpa only [normStack, h1, h2, h3, if_neg, if_pos] using hs)
          · refine ih t allow ?_ hrest s
              (by simpa only [normStack, h1, h2, h3, if_neg, if_pos] using hs)
            exact fun x hx => hacc x (List.mem_cons_of_mem _ hx)
      · refine ih (seg :: acc) allow ?_ hrest s
          (by simpa only [normStack, h1, h2, if_neg] using hs)
        intro x hx
        rcases List.mem_cons.mp hx with hx | hx
        · subst hx; exact hseg
        · exact hacc x hx

lemma joinSegs_cons (s : List Char) (rest : List (List Char)) :
    ∃ t, joinSegs (s :: rest) = s ++ t := by
  cases rest with
  | nil => exact ⟨[], by simp [joinSegs]⟩
  | cons b l => exact ⟨'/' :: joinSegs (b :: l), rfl⟩

lemma headSlash_body (cs : List Char) (allow : Bool) :
    headSlash (joinSegs (normStack allow (segsOf cs []) [])) = false := by
  have hgood := normStack_good (segsOf cs []) [] allow (by simp)
    (segsOf_good cs [] (by simp))
  cases hstack : normStack allow (segsOf cs []) [] with
  | nil => rfl
  | cons s ss =>
    have hs : s ≠ [] ∧ '/' ∉ s :=
      hgood s (by rw [hstack]; exact List.mem_cons_self _ _)
    obtain ⟨t, ht⟩ := joinSegs_cons s ss
    rw [ht]
    match s, hs with
    | a :: as, hs =>
      have ha : ¬ (a = '/') := fun hh => hs.2 (hh ▸ List.mem_cons_self _ _)
      simpa [headSlash] using ha

lemma headSlash_append_left (l l2 : List Char) (h : l ≠ []) :
    headSlash (l ++ l2) = headSlash l := by
  match l, h with
  | a :: as, _ => rfl

lemma headSlash_cons (c : Char) (l : List Char) :
    headSlash (c :: l) = decide (c = '/') := rfl

lemma headSlash_normalizeChars (cs : List Char) :
    headSlash (normalizeChars cs) = headSlash cs := by
  match cs with
  | [] => rfl
  | c0 :: rest =>
    by_cases habs : c0 = '/'
    · subst habs
      have h1 : headSlash ('/' :: rest) = true := by simp [headSlash_cons]
      rw [h1]
      simp only [normalizeChars, decide_True, Bool.not_true]
      split
      · split
        · simp [headSlash_cons]
        · next hft => exact absurd trivial hft
      · split
        · simp [headSlash_cons]
        · next hft => exact absurd trivial hft
    · have h1 : headSlash (c0 :: rest) = false := by simp [headSlash_cons, habs]
      rw [h1]
      have hbody := headSlash_body (c0 :: rest) true
      simp only [normalizeChars, habs, decide_False, Bool.not_false]
      split
      · split
        · next hft => exact absurd hft (by decide)
        · split <;> simp [headSlash_cons]
      · next hne =>
        split
        · next hft => exact absurd hft (by decide)
        · split
          · rw [headSlash_append_left _ _ hne]
            exact hbody
          · exact hbody

lemma pathIsAbsolute_pathNormalize (p : String) :
    pathIsAbsolute (pathNormalize p) = pathIsAbsolute p := by
  rw [pathIsAbsolute_eq_headSlash, pathIsAbsolute_eq_headSlash]
  exact headSlash_normalizeChars p.data

/-- C2: `sanitizePath` normalizes first and tests the normalized path:
every non-absolute raw path is rejected whatever the allow-list (a
normalized path is absolute exactly when the raw path is); with an empty
allow-list every absolute path is accepted as its normalized form; with
a non-empty allow-list an absolute path is accepted (as its normalized
form) exactly when the normalized path equals some prefix or starts
with that prefix followed by the separator; in particular for allow-list
`["/a/b"]`, `"/a/b"` and `"/a/b/c"` are accepted and `"/a/bc"` is
rejected. -/
theorem C2_sanitizePath_spec :
    (∀ (al : List String) (p : String), pathIsAbsolute p = false →
      sanitizePath al (.str p) = none) ∧
    (∀ p : String, pathIsAbsolute p = true →
      sanitizePath [] (.str p) = some (pathNormalize p)) ∧
    (∀ (al : List String) (p : String), al ≠ [] → pathIsAbsolute p = true →
      sanitizePath al (.str p) =
        (if al.any (fun a => pathNormalize p = a ||
            strStartsWith (pathNormalize p) (a ++ "/")) = true then
          some (pathNormalize p)
        else none)) ∧
    sanitizePath ["/a/b"] (.str "/a/b") = some "/a/b" ∧
    sanitizePath ["/a/b"] (.str "/a/b/c") = some "/a/b/c" ∧
    sanitizePath ["/a/b"] (.str "/a/bc") = none := by
  have habs0 : pathIsAbsolute "" = false := by decide
  refine ⟨?_, ?_, ?_, by decide, by decide, by decide⟩
  · intro al p hp
    by_cases he : p = ""
    · subst he; simp [sanitizePath]
    · simp [sanitizePath, he, pathIsAbsolute_pathNormalize, hp]
  · intro p hp
    have he : ¬ p = "" := fun h => by rw [h] at hp; rw [habs0] at hp; cases hp
    simp [sanitizePath, he, pathIsAbsolute_pathNormalize, hp]
  · intro al p hal hp
    have he : ¬ p = "" := fun h => by rw [h] at hp; rw [habs0] at hp; cases hp
    have hlen : al.length > 0 := List.length_pos.mpr hal
    simp [sanitizePath, he, pathIsAbsolute_pathNormalize, hp, hlen]

/-- Witness for C2: a relative path is rejected, an absolute path with
an empty allow-list is accepted, and a non-empty allow-list accepts
exactly according to the prefix test. -/
theorem C2_witness :
    sanitizePath ["/a"] (.str "x/y") = none ∧
    sanitizePath [] (.str "/q/../w") = some (pathNormalize "/q/../w") ∧
    sanitizePath ["/a/b"] (.str "/a/b/c") =
      (if (["/a/b"] : List String).any (fun a => pathNormalize "/a/b/c" = a ||
          strStartsWith (pathNormalize "/a/b/c") (a ++ "/")) = true then
        some (pathNormalize "/a/b/c")
      else none) :=
  ⟨C2_sanitizePath_spec.1 ["/a"] "x/y" (by decide),
   C2_sanitizePath_spec.2.1 "/q/../w" (by decide),
   C2_sanitizePath_spec.2.2.1 ["/a/b"] "/a/b/c" (by decide) (by decide)⟩

lemma attemptLoop_key_none (cfg : Config) (env : Env) (rid : Json) :
    ∀ (fuel attempt : Nat) (lastErr : Option String) (c : CacheMap),
      (attemptLoop cfg env rid none fuel attempt lastErr c).cacheAfter = c ∧
      (attemptLoop cfg env rid none fuel attempt lastErr c).cacheStored = false := by
  intro fuel
  induction fuel with
  | zero => intro attempt lastErr c; exact ⟨rfl, rfl⟩
  | succ n ih =>
    intro attempt lastErr c
    constructor
    · show (attemptLoop cfg env rid none (n + 1) attempt lastErr c).cacheAfter = c
      simp only [attemptLoop]
      split
      · rfl
      · rfl
      · next m _ =>
        split <;> simpa using (ih (attempt + 1) (some m) c).1
    · show (attemptLoop cfg env rid none (n + 1) attempt lastErr c).cacheStored = false
      simp only [attemptLoop]
      split
      · rfl
      · rfl
      · next m _ =>
        split <;> simpa using (ih (attempt + 1) (some m) c).2

/-- C9: the cache key is `null` exactly for requests the mutation-marker
predicate rejects — a `tools/call` whose string tool name contains one
of the fixed markers; every other request gets a (string) key.  A keyless
request is never looked up in the cache, never hits, never triggers a
store, and leaves the cache untouched. -/
theorem C9_uncacheable_requests :
    (∀ r : Request, createKey r = none ↔ isUncacheable r = true) ∧
    (∀ r : Request, isUncacheable r = true ↔
      (r.method = "tools/call" ∧ ∃ name, paramsName r = some name ∧
        ∃ op ∈ writeOperations, strIncludes name op = true)) ∧
    (∀ (cfg : Config) (env : Env) (cache0 : CacheMap) (reqs0 : List Int)
        (r : Request), isUncacheable r = true →
      (forwardToProxy cfg env cache0 reqs0 r).cacheLookedUp = false ∧
      (forwardToProxy cfg env cache0 reqs0 r).cacheHit = false ∧
      (forwardToProxy cfg env cache0 reqs0 r).cacheStored = false ∧
      (forwardToProxy cfg env cache0 reqs0 r).cacheAfter = cache0) := by
  refine ⟨?_, ?_, ?_⟩
  · intro r
    by_cases h : isUncacheable r = true
    · simp [createKey, h]
    · simp [createKey, h]
  · intro r
    constructor
    · intro h
      unfold isUncacheable at h
      by_cases hm : r.method = "tools/call"
      · rw [if_pos hm] at h
        cases hp : paramsName r with
        | none => rw [hp] at h; cases h
        | some name =>
          rw [hp] at h
          obtain ⟨op, hop, hinc⟩ := List.any_eq_true.mp h
          exact ⟨hm, name, rfl, op, hop, hinc⟩
      · rw [if_neg hm] at h; cases h
    · rintro ⟨hm, name, hname, op, hop, hinc⟩
      unfold isUncacheable
      rw [if_pos hm, hname]
      exact List.any_eq_true.mpr ⟨op, hop, hinc⟩
  · intro cfg env cache0 reqs0 r hU
    have hkey : createKey r = none := by simp [createKey, hU]
    unfold forwardToProxy
    by_cases hv : r.secViolation
    · simp [hv]
    · by_cases hsz : cfg.maxRequestSize < requestSize r
      · simp [hv, hsz]
      · by_cases hrate : (isLimitExceeded cfg.rateLimitPerMinute env.now reqs0).1
        · simp [hv, hsz, hrate]
        · simp only [hv, hsz, hrate, if_neg, if_false, Bool.false_eq_true, hkey]
          have hloop := attemptLoop_key_none cfg env r.id (cfg.maxRetries + 1) 0 none cache0
          simp [hloop.1, hloop.2]

/-- Witness for C9 at a concrete `write_file` tool call against an
all-failing proxy. -/
theorem C9_witness :
    isUncacheable
      { id := .num 3, method := "tools/call",
        params := some (.obj (.cons "name" (.str "write_file") .nil)),
        secViolation := false, errMsg := none } = true ∧
    (forwardToProxy cfgStd envFailAll [] []
      { id := .num 3, method := "tools/call",
        params := some (.obj (.cons "name" (.str "write_file") .nil)),
        secViolation := false, errMsg := none }).cacheLookedUp = false ∧
    (forwardToProxy cfgStd envFailAll [] []
      { id := .num 3, method := "tools/call",
        params := some (.obj (.cons "name" (.str "write_file") .nil)),
        secViolation := false, errMsg := none }).cacheAfter = [] := by
  refine ⟨by rfl, ?_, ?_⟩
  · exact (C9_uncacheable_requests.2.2 cfgStd envFailAll [] [] _ (by rfl)).1
  · exact (C9_uncacheable_requests.2.2 cfgStd envFailAll [] [] _ (by rfl)).2.2.2

/-! For C8, "equal as JSON structures, regardless of object key order"
(the spec's notion of structural equality) is modelled from the spec's
words: equality up to reordering of object fields, recursively. -/

/-- Permutation of JSON object fields. -/
inductive FieldsPerm : JsonFields → JsonFields → Prop where
  | nil : FieldsPerm .nil .nil
  | cons (k : String) (v : Json) {t u : JsonFields} :
      FieldsPerm t u → FieldsPerm (.cons k v t) (.cons k v u)
  | swap (k1 : String) (v1 : Json) (k2 : String) (v2 : Json) (t : JsonFields) :
      FieldsPerm (.cons k1 v1 (.cons k2 v2 t)) (.cons k2 v2 (.cons k1 v1 t))
  | trans {a b c : JsonFields} :
      FieldsPerm a b → FieldsPerm b c → FieldsPerm a c

mutual
/-- Modelled from the spec: structural equality of JSON values
"regardless of object key order" — identical scalars, pointwise
equivalent arrays, and objects whose fields agree up to a permutation. -/
inductive StructEquiv : Json → Json → Prop where
  | null : StructEquiv .null .null
  | bool (b : Bool) : StructEquiv (.bool b) (.bool b)
  | num (n : Int) : StructEquiv (.num n) (.num n)
  | str (s : String) : StructEquiv (.str s) (.str s)
  | arr {xs ys : JsonList} : ListEquiv xs ys → StructEquiv (.arr xs) (.arr ys)
  | obj {fs gs hs : JsonFields} :
      FieldsEquiv fs gs → FieldsPerm gs hs → StructEquiv (.obj fs) (.obj hs)
inductive ListEquiv : JsonList → JsonList → Prop where
  | nil : ListEquiv .nil .nil
  | cons {x y : Json} {xs ys : JsonList} :
      StructEquiv x y → ListEquiv xs ys → ListEquiv (.cons x xs) (.cons y ys)
inductive FieldsEquiv : JsonFields → JsonFields → Prop where
  | nil : FieldsEquiv .nil .nil
  | cons (k : String) {v w : Json} {t u : JsonFields} :
      StructEquiv v w → FieldsEquiv t u → FieldsEquiv (.cons k v t) (.cons k w u)
end

/-- Parameters `{"a":1,"b":2}`. -/
def paramsOrdA : Json := .obj (.cons "a" (.num 1) (.cons "b" (.num 2) .nil))

/-- The same parameters with the keys in the other order. -/
def paramsOrdB : Json := .obj (.cons "b" (.num 2) (.cons "a" (.num 1) .nil))

/-- A cacheable request with `paramsOrdA`. -/
def reqOrdA : Request :=
  { id := .num 1, method := "resources/list", params := some paramsOrdA,
    secViolation := false, errMsg := none }

/-- The same request with the field order of its parameters flipped. -/
def reqOrdB : Request :=
  { id := .num 1, method := "resources/list", params := some paramsOrdB,
    secViolation := false, errMsg := none }

/-- Counterexample to C8: two cacheable requests with the same method
and structurally-equal parameters (keys in different order) receive
DIFFERENT cache keys, because `createKey` serializes with
`JSON.stringify`, which preserves key order. -/
theorem C8_key_order_counterexample :
    StructEquiv paramsOrdA paramsOrdB ∧
    reqOrdA.method = reqOrdB.method ∧
    createKey reqOrdA ≠ none ∧ createKey reqOrdB ≠ none ∧
    createKey reqOrdA ≠ createKey reqOrdB := by
  refine ⟨?_, rfl, by decide, by decide, by decide⟩
  exact .obj
    (.cons "a" (.num 1) (.cons "b" (.num 2) .nil))
    (.swap "a" (.num 1) "b" (.num 2) .nil)

/-- C8 amended: the cache key is a deterministic function of the method
name and the parameter value alone (object key order included): two
requests with the same method and identical parameters always receive
the same key, whatever their ids or markers. -/
theorem C8_createKey_deterministic (r1 r2 : Request)
    (hm : r1.method = r2.method) (hp : r1.params = r2.params) :
    createKey r1 = createKey r2 := by
  cases r1
  cases r2
  simp only at hm hp
  cases hm
  cases hp
  rfl

/-- The request `reqOrdA` with a different id. -/
def reqOrdA42 : Request :=
  { id := .num 42, method := "resources/list", params := some paramsOrdA,
    secViolation := false, errMsg := none }

/-- Witness for the amended C8: two requests differing only in `id`
share a cache key. -/
theorem C8_witness : createKey reqOrdA = createKey reqOrdA42 :=
  C8_createKey_deterministic _ _ rfl rfl

lemma getField_createErrorResponse (rid : Json) (code : Int) (msg : String) :
    getField (createErrorResponse rid code msg) "id" = some rid := by
  rfl

lemma fieldsGet_fieldsSet : ∀ (fs : JsonFields) (k : String) (v : Json),
    getField.fieldsGet (fieldsSet fs k v) k = some v
  | .nil, k, v => by simp [fieldsSet, getField.fieldsGet]
  | .cons key w tl, k, v => by
    by_cases hk : key = k
    · simp [fieldsSet, getField.fieldsGet, hk]
    · simp [fieldsSet, getField.fieldsGet, hk, fieldsGet_fieldsSet tl k v]

lemma getField_setField (j : Json) (k : String) (v : Json) :
    getField (setField j k v) k = some v := by
  cases j with
  | obj fs => simpa [setField, getField] using fieldsGet_fieldsSet fs k v
  | null => simp [setField, getField, getField.fieldsGet]
  | bool b => simp [setField, getField, getField.fieldsGet]
  | num n => simp [setField, getField, getField.fieldsGet]
  | str s => simp [setField, getField, getField.fieldsGet]
  | arr xs => simp [setField, getField, getField.fieldsGet]

lemma classify_eq_ok {o : FetchOutcome} {b : Json} (h : classify o = .ok b) :
    o = .ok b := by
  cases o with
  | ok body => simpa [classify] using h
  | timeout => simp [classify] at h
  | fail m => simp [classify] at h
  | httpError s t => simp [classify] at h

lemma attemptLoop_id (cfg : Config) (env : Env) (rid : Json) (key : Option String)
    (hecho : ∀ (k : Nat) (body : Json), env.fetches k = .ok body →
      getField body "id" = some rid) :
    ∀ (fuel attempt : Nat) (lastErr : Option String) (c : CacheMap),
      getField (attemptLoop cfg env rid key fuel attempt lastErr c).response "id" =
        some rid := by
  intro fuel
  induction fuel with
  | zero =>
    intro attempt lastErr c
    exact getField_createErrorResponse rid _ _
  | succ n ih =>
    intro attempt lastErr c
    simp only [attemptLoop]
    split
    · next body heq =>
      have hofetch := classify_eq_ok heq
      have hbody := hecho attempt body hofetch
      cases key with
      | some k =>
        by_cases herr : isTruthy (getField body "error") = true
        · simpa [herr] using hbody
        · simp only [herr]
          simpa using hbody
      | none => simpa using hbody
    · exact getField_createErrorResponse rid _ _
    · next m _ =>
      split <;> simpa using ih (attempt + 1) (some m) c

/-- Counterexample to C3: `forwardToProxy` returns a fresh successful
proxy body verbatim, so when the proxy answers with a different `id`
(here 2) than the request's (here 1), the returned response's `id` does
not match the request's. -/
def envWrongId : Env :=
  { now := 0,
    fetches := fun _ => .ok (.obj (.cons "jsonrpc" (.str "2.0")
      (.cons "id" (.num 2) (.cons "result" (.str "hi") .nil)))),
    rand := fun _ => 1/2 }

/-- A plain cacheable request with id 1. -/
def reqPing : Request :=
  { id := .num 1, method := "ping", params := none, secViolation := false,
    errMsg := none }

/-- Counterexample to C3 (see `envWrongId`). -/
theorem C3_response_id_counterexample :
    reqPing.id = .num 1 ∧
    getField (forwardToProxy cfgStd envWrongId [] [] reqPing).response "id" =
      some (.num 2) ∧
    getField (forwardToProxy cfgStd envWrongId [] [] reqPing).response "id" ≠
      some reqPing.id := by
  refine ⟨rfl, by rfl, ?_⟩
  intro h
  rw [show getField (forwardToProxy cfgStd envWrongId [] [] reqPing).response "id" =
      some (.num 2) from by rfl] at h
  injection h with h1
  injection h1 with h2
  exact absurd h2 (by decide)

/-- C3 amended: every locally-generated error response and every cache
hit carries the originating request's `id` (the cached response's `id`
is overwritten before return); a fresh successful HTTP response is
returned verbatim, so its `id` matches the request's provided the proxy
echoed the request's `id`, as the wire contract expects.  Under that
proviso the invariant holds on every path. -/
theorem C3_response_id_matches (cfg : Config) (env : Env) (cache0 : CacheMap)
    (reqs0 : List Int) (r : Request)
    (hecho : ∀ (k : Nat) (body : Json), env.fetches k = .ok body →
      getField body "id" = some r.id) :
    getField (forwardToProxy cfg env cache0 reqs0 r).response "id" = some r.id := by
  unfold forwardToProxy
  by_cases hv : r.secViolation
  · simpa [hv] using getField_createErrorResponse r.id (-32600) _
  · by_cases hsz : cfg.maxRequestSize < requestSize r
    · simpa [hv, hsz] using getField_createErrorResponse r.id (-32600) _
    · by_cases hrate : (isLimitExceeded cfg.rateLimitPerMinute env.now reqs0).1
      · simpa [hv, hsz, hrate] using getField_createErrorResponse r.id (-32029) _
      · simp only [hv, hsz, hrate, if_neg, if_false, Bool.false_eq_true]
        cases hkey : createKey r with
        | some key =>
          cases hhit : (cacheGet cfg.responseCache env.now cache0 key).1 with
          | some cached =>
            simpa [hhit] using getField_setField cached "id" r.id
          | none =>
            simpa [hhit] using
              attemptLoop_id cfg env r.id (some key) hecho (cfg.maxRetries + 1) 0
                none (cacheGet cfg.responseCache env.now cache0 key).2
        | none =>
          simpa using
            attemptLoop_id cfg env r.id none hecho (cfg.maxRetries + 1) 0 none cache0

/-- An environment whose proxy echoes id 1. -/
def envEcho1 : Env :=
  { now := 0,
    fetches := fun _ => .ok (.obj (.cons "jsonrpc" (.str "2.0")
      (.cons "id" (.num 1) (.cons "result" (.str "hi") .nil)))),
    rand := fun _ => 1/2 }

/-- Witness for the amended C3 with an id-echoing proxy. -/
theorem C3_witness :
    getField (forwardToProxy cfgStd envEcho1 [] [] reqPing).response "id" =
      some reqPing.id :=
  C3_response_id_matches cfgStd envEcho1 [] [] reqPing
    (fun k body h => by cases h; rfl)

lemma classify_of_isFailStep {o : FetchOutcome} (h : isFailStep o = true) :
    classify o = .failed (failMsgOf o) := by
  cases o <;> simp [isFailStep, classify, failMsgOf] at h ⊢

lemma attemptLoop_failed_step (cfg : Config) (env : Env) (rid : Json)
    (key : Option String) (fuel attempt : Nat) (lastErr : Option String)
    (c : CacheMap) (m : String)
    (h : classify (env.fetches attempt) = .failed m) :
    attemptLoop cfg env rid key (fuel + 1) attempt lastErr c =
      (if fuel = 0 then
        { attemptLoop cfg env rid key fuel (attempt + 1) (some m) c with
          httpAttempts :=
            (attemptLoop cfg env rid key fuel (attempt + 1) (some m) c).httpAttempts
              + 1 }
      else
        { attemptLoop cfg env rid key fuel (attempt + 1) (some m) c with
          httpAttempts :=
            (attemptLoop cfg env rid key fuel (attempt + 1) (some m) c).httpAttempts
              + 1,
          waits := backoffDelay cfg (env.rand attempt) attempt ::
            (attemptLoop cfg env rid key fuel (attempt + 1) (some m) c).waits }) := by
  simp only [attemptLoop]
  rw [h]

lemma attemptLoop_abort_step (cfg : Config) (env : Env) (rid : Json)
    (key : Option String) (fuel attempt : Nat) (lastErr : Option String)
    (c : CacheMap)
    (h : classify (env.fetches attempt) = .abort) :
    attemptLoop cfg env rid key (fuel + 1) attempt lastErr c =
      { response := createErrorResponse rid (-32000)
          ("Request timed out after " ++ toString cfg.timeout ++ "ms"),
        cacheAfter := c, httpAttempts := 1, waits := [], cacheStored := false } := by
  simp only [attemptLoop]
  rw [h]

lemma attemptLoop_all_fail (cfg : Config) (env : Env) (rid : Json)
    (key : Option String) (c : CacheMap) :
    ∀ (n attempt : Nat) (lastErr : Option String),
      (∀ k, attempt ≤ k → k ≤ attempt + n →
        isFailStep (env.fetches k) = true ∧ failMsgOf (env.fetches k) ≠ "") →
      attemptLoop cfg env rid key (n + 1) attempt lastErr c =
        { response := createErrorResponse rid (-32003)
            ("Failed to communicate with MCP proxy: " ++
              failMsgOf (env.fetches (attempt + n))),
          cacheAfter := c, httpAttempts := n + 1,
          waits := (List.range n).map
            (fun i => backoffDelay cfg (env.rand (attempt + i)) (attempt + i)),
          cacheStored := false } := by
  intro n
  induction n with
  | zero =>
    intro attempt lastErr hfail
    obtain ⟨hstep, hne⟩ := hfail attempt (Nat.le_refl _) (Nat.le_add_right _ _)
    have hcl := classify_of_isFailStep hstep
    rw [attemptLoop_failed_step cfg env rid key 0 attempt lastErr c _ hcl]
    simp [attemptLoop, strOr, hne]
  | succ m ih =>
    intro attempt lastErr hfail
    obtain ⟨hstep, hne⟩ := hfail attempt (Nat.le_refl _) (Nat.le_add_right _ _)
    have hcl := classify_of_isFailStep hstep
    have hrest := ih (attempt + 1) (some (failMsgOf (env.fetches attempt)))
      (fun k hk1 hk2 => hfail k (by omega) (by omega))
    rw [attemptLoop_failed_step cfg env rid key (m + 1) attempt lastErr c _ hcl,
      if_neg (Nat.succ_ne_zero m), hrest]
    simp only [LoopResult.mk.injEq]
    refine ⟨?_, trivial, trivial, ?_, trivial⟩
    · rw [show attempt + 1 + m = attempt + (m + 1) from by omega]
    · rw [List.range_succ_eq_map, List.map_cons, List.map_map]
      congr 1
      apply List.map_congr_left
      intro a _
      simp only [Function.comp_apply]
      rw [show attempt + 1 + a = attempt + (a + 1) from by omega]

lemma attemptLoop_abort (cfg : Config) (env : Env) (rid : Json)
    (key : Option String) (c : CacheMap) :
    ∀ (j fuel attempt : Nat) (lastErr : Option String), j < fuel →
      (∀ k, attempt ≤ k → k < attempt + j → isFailStep (env.fetches k) = true) →
      classify (env.fetches (attempt + j)) = .abort →
      attemptLoop cfg env rid key fuel attempt lastErr c =
        { response := createErrorResponse rid (-32000)
            ("Request timed out after " ++ toString cfg.timeout ++ "ms"),
          cacheAfter := c, httpAttempts := j + 1,
          waits := (List.range j).map
            (fun i => backoffDelay cfg (env.rand (attempt + i)) (attempt + i)),
          cacheStored := false } := by
  intro j
  induction j with
  | zero =>
    intro fuel attempt lastErr hlt _ habort
    rw [Nat.add_zero] at habort
    match fuel, hlt with
    | f + 1, _ =>
      rw [attemptLoop_abort_step cfg env rid key f attempt lastErr c habort]
      simp
  | succ m ih =>
    intro fuel attempt lastErr hlt hfail habort
    match fuel, hlt with
    | f + 1, hlt =>
      have hstep : isFailStep (env.fetches attempt) = true :=
        hfail attempt (Nat.le_refl _) (by omega)
      have hcl := classify_of_isFailStep hstep
      have hf : ¬ (f = 0) := by omega
      have hrest := ih f (attempt + 1) (some (failMsgOf (env.fetches attempt)))
        (by omega) (fun k hk1 hk2 => hfail k (by omega) (by omega))
        (by rw [show attempt + 1 + m = attempt + (m + 1) from by omega]; exact habort)
      rw [attemptLoop_failed_step cfg env rid key f attempt lastErr c _ hcl,
        if_neg hf, hrest]
      simp only [LoopResult.mk.injEq]
      refine ⟨trivial, trivial, trivial, ?_, trivial⟩
      rw [List.range_succ_eq_map, List.map_cons, List.map_map]
      congr 1
      apply List.map_congr_left
      intro a _
      simp only [Function.comp_apply]
      rw [show attempt + 1 + a = attempt + (a + 1) from by omega]

/-- C5: when every attempt fails with a transport or non-2xx status
error (with a nonempty error message), `forwardToProxy` performs exactly
`maxRetries + 1` fetch attempts, waits
`min(maxDelay, initialDelay * 2^attempt * (0.9 + rand * 0.2))` between
consecutive attempts, and returns the proxy-unreachable error `-32003`
with the request's `id` and the last underlying error in the message;
the jitter factor `0.9 + rand * 0.2` lies in `[0.9, 1.1]` when `rand`
is in `[0, 1)`. -/
theorem C5_retry_exhaustion
    (cfg : Config) (env : Env) (cache0 : CacheMap) (reqs0 : List Int) (r : Request)
    (hv : r.secViolation = false)
    (hsize : requestSize r ≤ cfg.maxRequestSize)
    (hrate : (isLimitExceeded cfg.rateLimitPerMinute env.now reqs0).1 = false)
    (hmiss : ∀ k, createKey r = some k →
      (cacheGet cfg.responseCache env.now cache0 k).1 = none)
    (hfail : ∀ k, k ≤ cfg.maxRetries →
      isFailStep (env.fetches k) = true ∧ failMsgOf (env.fetches k) ≠ "") :
    (forwardToProxy cfg env cache0 reqs0 r).httpAttempts = cfg.maxRetries + 1 ∧
    (forwardToProxy cfg env cache0 reqs0 r).response =
      createErrorResponse r.id (-32003)
        ("Failed to communicate with MCP proxy: " ++
          failMsgOf (env.fetches cfg.maxRetries)) ∧
    (forwardToProxy cfg env cache0 reqs0 r).waits =
      (List.range cfg.maxRetries).map
        (fun k => min (cfg.retryMaxDelayMs : ℚ)
          ((cfg.retryInitialDelayMs : ℚ) * 2 ^ k * (9/10 + env.rand k * (2/10)))) ∧
    (∀ k : Nat, 0 ≤ env.rand k → env.rand k < 1 →
      (9 : ℚ)/10 ≤ 9/10 + env.rand k * (2/10) ∧
      (9 : ℚ)/10 + env.rand k * (2/10) ≤ 11/10) := by
  have hmain : ∀ (key : Option String) (c : CacheMap),
      attemptLoop cfg env r.id key (cfg.maxRetries + 1) 0 none c =
        { response := createErrorResponse r.id (-32003)
            ("Failed to communicate with MCP proxy: " ++
              failMsgOf (env.fetches (0 + cfg.maxRetries))),
          cacheAfter := c, httpAttempts := cfg.maxRetries + 1,
          waits := (List.range cfg.maxRetries).map
            (fun i => backoffDelay cfg (env.rand (0 + i)) (0 + i)),
          cacheStored := false } :=
    fun key c => attemptLoop_all_fail cfg env r.id key c cfg.maxRetries 0 none
      (fun k _ hk2 => hfail k (by omega))
  have harith : ∀ k : Nat, 0 ≤ env.rand k → env.rand k < 1 →
      (9 : ℚ)/10 ≤ 9/10 + env.rand k * (2/10) ∧
      (9 : ℚ)/10 + env.rand k * (2/10) ≤ 11/10 := by
    intro k h0 h1
    constructor
    · have hm : (0 : ℚ) ≤ env.rand k * (2/10) :=
        mul_nonneg h0 (by norm_num)
      linarith
    · have hm : env.rand k * (2/10) ≤ 1 * (2/10) :=
        mul_le_mul_of_nonneg_right h1.le (by norm_num)
      linarith
  cases hkey : createKey r with
  | none =>
    simp only [forwardToProxy, hv, Bool.false_eq_true, if_false,
      if_neg (Nat.not_lt.mpr hsize), hrate, hkey]
    rw [hmain none cache0]
    refine ⟨rfl, by simp, ?_, harith⟩
    simp [backoffDelay]
  | some key =>
    simp only [forwardToProxy, hv, Bool.false_eq_true, if_false,
      if_neg (Nat.not_lt.mpr hsize), hrate, hkey, hmiss key hkey]
    rw [hmain (some key) (cacheGet cfg.responseCache env.now cache0 key).2]
    refine ⟨rfl, by simp, ?_, harith⟩
    simp [backoffDelay]

/-- Configuration with a single retry (two attempts). -/
def cfgRetry1 : Config := { cfgStd with maxRetries := 1 }

/-- Witness for C5: two failing attempts against `cfgRetry1`. -/
theorem C5_witness :
    (forwardToProxy cfgRetry1 envFailAll [] [] reqPing).httpAttempts =
      cfgRetry1.maxRetries + 1 ∧
    (forwardToProxy cfgRetry1 envFailAll [] [] reqPing).response =
      createErrorResponse reqPing.id (-32003)
        ("Failed to communicate with MCP proxy: " ++
          failMsgOf (envFailAll.fetches cfgRetry1.maxRetries)) ∧
    (forwardToProxy cfgRetry1 envFailAll [] [] reqPing).waits =
      (List.range cfgRetry1.maxRetries).map
        (fun k => min (cfgRetry1.retryMaxDelayMs : ℚ)
          ((cfgRetry1.retryInitialDelayMs : ℚ) * 2 ^ k *
            (9/10 + envFailAll.rand k * (2/10)))) ∧
    (∀ k : Nat, 0 ≤ envFailAll.rand k → envFailAll.rand k < 1 →
      (9 : ℚ)/10 ≤ 9/10 + envFailAll.rand k * (2/10) ∧
      (9 : ℚ)/10 + envFailAll.rand k * (2/10) ≤ 11/10) :=
  C5_retry_exhaustion cfgRetry1 envFailAll [] [] reqPing rfl (by decide) rfl
    (fun k _ => rfl)
    (fun k _ => ⟨rfl, (by decide : ("connect ECONNREFUSED" : String) ≠ "")⟩)

/-- C6: when the `j`-th attempt (after `j` failing ones, `j ≤ maxRetries`)
exceeds the per-attempt timeout, `forwardToProxy` aborts and returns the
timeout error `-32000` with the request's `id` immediately: exactly
`j + 1` fetch attempts happen (none after the timeout) and only the `j`
pre-timeout backoff waits are performed. -/
theorem C6_timeout_no_retry
    (cfg : Config) (env : Env) (cache0 : CacheMap) (reqs0 : List Int) (r : Request)
    (j : Nat)
    (hv : r.secViolation = false)
    (hsize : requestSize r ≤ cfg.maxRequestSize)
    (hrate : (isLimitExceeded cfg.rateLimitPerMinute env.now reqs0).1 = false)
    (hmiss : ∀ k, createKey r = some k →
      (cacheGet cfg.responseCache env.now cache0 k).1 = none)
    (hj : j ≤ cfg.maxRetries)
    (hfail : ∀ k, k < j → isFailStep (env.fetches k) = true)
    (habort : classify (env.fetches j) = .abort) :
    (forwardToProxy cfg env cache0 reqs0 r).httpAttempts = j + 1 ∧
    (forwardToProxy cfg env cache0 reqs0 r).response =
      createErrorResponse r.id (-32000)
        ("Request timed out after " ++ toString cfg.timeout ++ "ms") ∧
    (forwardToProxy cfg env cache0 reqs0 r).waits =
      (List.range j).map (fun i => backoffDelay cfg (env.rand i) i) := by
  have hmain : ∀ (key : Option String) (c : CacheMap),
      attemptLoop cfg env r.id key (cfg.maxRetries + 1) 0 none c =
        { response := createErrorResponse r.id (-32000)
            ("Request timed out after " ++ toString cfg.timeout ++ "ms"),
          cacheAfter := c, httpAttempts := j + 1,
          waits := (List.range j).map
            (fun i => backoffDelay cfg (env.rand (0 + i)) (0 + i)),
          cacheStored := false } :=
    fun key c => attemptLoop_abort cfg env r.id key c j (cfg.maxRetries + 1) 0 none
      (by omega) (fun k _ hk2 => hfail k (by omega)) (by simpa using habort)
  cases hkey : createKey r with
  | none =>
    simp only [forwardToProxy, hv, Bool.false_eq_true, if_false,
      if_neg (Nat.not_lt.mpr hsize), hrate, hkey]
    rw [hmain none cache0]
    exact ⟨rfl, rfl, by simp⟩
  | some key =>
    simp only [forwardToProxy, hv, Bool.false_eq_true, if_false,
      if_neg (Nat.not_lt.mpr hsize), hrate, hkey, hmiss key hkey]
    rw [hmain (some key) (cacheGet cfg.responseCache env.now cache0 key).2]
    exact ⟨rfl, rfl, by simp⟩

/-- An environment whose first attempt times out. -/
def envTimeout : Env :=
  { now := 0, fetches := fun _ => .timeout, rand := fun _ => 1/2 }

/-- Witness for C6: the very first attempt times out, one attempt total. -/
theorem C6_witness :
    (forwardToProxy cfgStd envTimeout [] [] reqPing).httpAttempts = 0 + 1 ∧
    (forwardToProxy cfgStd envTimeout [] [] reqPing).response =
      createErrorResponse reqPing.id (-32000)
        ("Request timed out after " ++ toString cfgStd.timeout ++ "ms") ∧
    (forwardToProxy cfgStd envTimeout [] [] reqPing).waits =
      (List.range 0).map (fun i => backoffDelay cfgStd (envTimeout.rand i) i) :=
  C6_timeout_no_retry cfgStd envTimeout [] [] reqPing 0 rfl (by decide) rfl
    (fun k _ => rfl) (by omega) (fun k hk => absurd hk (Nat.not_lt_zero k)) rfl

/-- Configuration with a tiny request-size limit. -/
def cfgSmall : Config := { cfgStd with maxRequestSize := 4 }

/-- Counterexample to C4: an oversize input line is answered with the
invalid-request code `-32600` ("Request too large"), not with the
standard parse-error code `-32700` that the shim's own malformed-line
branch emits — so the oversize rejection is not a parse-type error
Response. -/
theorem C4_oversize_counterexample :
    (processLine cfgSmall envFailAll (fun _ => .err "unused") ⟨[], []⟩
      "xxxxxxxx").2.2 = false ∧
    errorCodeOf (processLine cfgSmall envFailAll (fun _ => .err "unused") ⟨[], []⟩
      "xxxxxxxx").1 = some (.num (-32600)) ∧
    errorCodeOf (createErrorResponse .null (-32700) "Parse error: bad") =
      some (.num (-32700)) ∧
    ((-32600 : Int) ≠ -32700) := by
  exact ⟨rfl, by rfl, by rfl, by decide⟩

/-- C4 amended: an input line longer than the configured maximum is
answered immediately with the invalid-request error `-32600`
("Request too large") carrying `id: null`, without attempting to parse
the line as JSON, the shared state is untouched, and processing
continues with the next line. -/
theorem C4_oversize_line
    (cfg : Config) (env : Env) (parse : String → ParseResult) (st : ShimState)
    (line : String) (rest : List (String × Env))
    (hlen : cfg.maxRequestSize < line.length) :
    processLine cfg env parse st line =
      (createErrorResponse .null (-32600) "Request too large", st, false) ∧
    processLines cfg parse st ((line, env) :: rest) =
      createErrorResponse .null (-32600) "Request too large" ::
        processLines cfg parse st rest := by
  have h1 : processLine cfg env parse st line =
      (createErrorResponse .null (-32600) "Request too large", st, false) := by
    simp [processLine, hlen]
  exact ⟨h1, by simp [processLines, h1]⟩

/-- Witness for the amended C4: an 8-character line against a
4-byte limit, followed by another line. -/
theorem C4_witness :
    processLine cfgSmall envFailAll (fun _ => .err "bad") ⟨[], []⟩ "xxxxxxxx" =
      (createErrorResponse .null (-32600) "Request too large", ⟨[], []⟩, false) ∧
    processLines cfgSmall (fun _ => .err "bad") ⟨[], []⟩
        [("xxxxxxxx", envFailAll), ("yyyyyyyy", envFailAll)] =
      createErrorResponse .null (-32600) "Request too large" ::
        processLines cfgSmall (fun _ => .err "bad") ⟨[], []⟩
          [("yyyyyyyy", envFailAll)] :=
  C4_oversize_line cfgSmall envFailAll (fun _ => .err "bad") ⟨[], []⟩ "xxxxxxxx"
    [("yyyyyyyy", envFailAll)] (by decide)

/-- C10: path sanitation is not atomic on rejection.  A failing `path`
argument leaves the request's arguments untouched (the original path
appears verbatim in the error message); a failing `paths` array is not
written back at all; but a failing `source` (resp. `destination`)
argument is overwritten with `null` in the returned violation-marked
request, because the source assigns the sanitized value before testing
it for `null`. -/
theorem C10_sanitation_frame_effects :
    (∀ (allowed : List String) (r : Request) (params args : Json) (p : String),
      r.method = "tools/call" → r.params = some params →
      getField params "arguments" = some args → isObjectType args = true →
      strFieldOf args "path" = some p → sanitizePath allowed (.str p) = none →
      processRequest "filesystem" allowed r =
        markViolation r ("Access denied to path: " ++ p)) ∧
    (∀ (allowed : List String) (r : Request) (params args : Json) (ps : JsonList),
      r.method = "tools/call" → r.params = some params →
      getField params "arguments" = some args → isObjectType args = true →
      strFieldOf args "path" = none → getField args "paths" = some (.arr ps) →
      sanitizePathsList allowed ps = none →
      processRequest "filesystem" allowed r =
        markViolation r "Access denied to one or more requested paths") ∧
    (∀ (allowed : List String) (r : Request) (params args : Json) (srcStr : String),
      r.method = "tools/call" → r.params = some params →
      getField params "arguments" = some args → isObjectType args = true →
      strFieldOf args "path" = none → getField args "paths" = none →
      strFieldOf args "source" = some srcStr →
      sanitizePath allowed (.str srcStr) = none →
      processRequest "filesystem" allowed r =
        markViolation
          { r with params := some (setField params "arguments"
              (setField args "source" .null)) }
          "Access denied to source path") ∧
    (∀ (allowed : List String) (r : Request) (params args : Json) (dstStr : String),
      r.method = "tools/call" → r.params = some params →
      getField params "arguments" = some args → isObjectType args = true →
      strFieldOf args "path" = none → getField args "paths" = none →
      strFieldOf args "source" = none →
      strFieldOf args "destination" = some dstStr →
      sanitizePath allowed (.str dstStr) = none →
      processRequest "filesystem" allowed r =
        markViolation
          { r with params := some (setField params "arguments"
              (setField args "destination" .null)) }
          "Access denied to destination path") := by
  refine ⟨?_, ?_, ?_, ?_⟩
  · intro allowed r params args p hm hpar hargs hobj hpath hsan
    simp [processRequest, hm, hpar, hargs, hobj, stagePath, hpath, hsan]
  · intro allowed r params args ps hm hpar hargs hobj hpath hpaths hsanl
    simp [processRequest, hm, hpar, hargs, hobj, stagePath, hpath, stagePaths,
      hpaths, hsanl]
  · intro allowed r params args srcStr hm hpar hargs hobj hpath hpaths hsrc hsan
    simp [processRequest, hm, hpar, hargs, hobj, stagePath, hpath, stagePaths,
      hpaths, stageSource, stageSrcDst, hsrc, hsan, setArgs]
  · intro allowed r params args dstStr hm hpar hargs hobj hpath hpaths hsrc hdst hsan
    simp [processRequest, hm, hpar, hargs, hobj, stagePath, hpath, stagePaths,
      hpaths, stageSource, stageSrcDst, hsrc, stageDestination, hdst, hsan,
      setArgs]

/-- Arguments carrying only a relative `path`. -/
def argsPathRel : Json := .obj (.cons "path" (.str "rel") .nil)

/-- Parameters wrapping `argsPathRel`. -/
def paramsPathRel : Json := .obj (.cons "arguments" argsPathRel .nil)

/-- A filesystem tool call whose `path` argument is relative. -/
def reqPathRel : Request :=
  { id := .num 9, method := "tools/call", params := some paramsPathRel,
    secViolation := false, errMsg := none }

/-- Arguments carrying only a relative `source`. -/
def argsSrcRel : Json := .obj (.cons "source" (.str "rel") .nil)

/-- Parameters wrapping `argsSrcRel`. -/
def paramsSrcRel : Json := .obj (.cons "arguments" argsSrcRel .nil)

/-- A filesystem tool call whose `source` argument is relative. -/
def reqSrcRel : Request :=
  { id := .num 9, method := "tools/call", params := some paramsSrcRel,
    secViolation := false, errMsg := none }

/-- Witness for C10: a rejected `path` stays in place while a rejected
`source` is overwritten with `null`. -/
theorem C10_witness :
    processRequest "filesystem" [] reqPathRel =
      markViolation reqPathRel "Access denied to path: rel" ∧
    processRequest "filesystem" [] reqSrcRel =
      markViolation
        { reqSrcRel with params := some (setField paramsSrcRel "arguments"
            (setField argsSrcRel "source" .null)) }
        "Access denied to source path" :=
  ⟨C10_sanitation_frame_effects.1 [] reqPathRel paramsPathRel argsPathRel "rel"
      rfl rfl rfl rfl rfl rfl,
   C10_sanitation_frame_effects.2.2.1 [] reqSrcRel paramsSrcRel argsSrcRel "rel"
      rfl rfl rfl rfl rfl rfl rfl rfl⟩
